import Mathlib

/-!
Verification of the `txs-eng` transaction engine.

The Rust sources are embedded shallowly:
* `Amount` (src/amount.rs) is the scaled `i64` fixed-point value, modelled as
  `Int`; the source documents arithmetic overflow as out of the stream's
  domain, so the embedding uses unbounded integers.
* `ClientAccount` (src/engine/state.rs) with its mutation primitives.
* `Transaction`, `DepositState`, `DepositRecord` (src/model.rs).
* `Engine` (src/engine/mod.rs): the two hash maps and the id set are
  association lists / a list set with first-occurrence lookup semantics,
  and each `apply_*` method is a function returning the `Result` together
  with the post-state, mutations performed in the source's order (so a
  mutation committed before a later error is visible in the embedding,
  exactly as in the in-place Rust code).
-/

namespace TxsEng

/-- `ClientId` (src/model.rs): `u16`. The claims do not depend on the width. -/
abbrev ClientId := Nat

/-- `TxId` (src/model.rs): `u32`. The claims do not depend on the width. -/
abbrev TxId := Nat

/-- `Amount` (src/amount.rs): fixed-point with 4 decimals, stored scaled. -/
abbrev Amount := Int

/-- `Amount::from_scaled` (src/amount.rs). -/
def Amount.from_scaled (v : Int) : Amount := v

/-- `DepositState` (src/model.rs). `ChargedBack` is encoded by eviction. -/
inductive DepositState where
  | Ok
  | Disputed
deriving DecidableEq, Repr

/-- `DepositRecord` (src/model.rs). -/
structure DepositRecord where
  client : ClientId
  amount : Amount
  state : DepositState
deriving DecidableEq, Repr

/-- `DepositRecord::new` (src/model.rs): fresh record in the `Ok` state. -/
def DepositRecord.new (client : ClientId) (amount : Amount) : DepositRecord :=
  ⟨client, amount, DepositState.Ok⟩

/-- `ClientAccount` (src/engine/state.rs). -/
structure ClientAccount where
  id : ClientId
  available : Amount
  held : Amount
  frozen : Bool
deriving DecidableEq, Repr

namespace ClientAccount

/-- `ClientAccount::new`: zero balances, unfrozen. -/
def new (id : ClientId) : ClientAccount :=
  ⟨id, 0, 0, false⟩

/-- `ClientAccount::total`: available + held (computed, not stored). -/
def total (a : ClientAccount) : Amount := a.available + a.held

/-- `ClientAccount::credit`. -/
def credit (a : ClientAccount) (amount : Amount) : ClientAccount :=
  { a with available := a.available + amount }

/-- `ClientAccount::debit`. -/
def debit (a : ClientAccount) (amount : Amount) : ClientAccount :=
  { a with available := a.available - amount }

/-- `ClientAccount::hold`: move from available to held. -/
def hold (a : ClientAccount) (amount : Amount) : ClientAccount :=
  { a with available := a.available - amount, held := a.held + amount }

/-- `ClientAccount::release`: move from held back to available. -/
def release (a : ClientAccount) (amount : Amount) : ClientAccount :=
  { a with held := a.held - amount, available := a.available + amount }

/-- `ClientAccount::remove_held`: drop held funds (chargeback). -/
def remove_held (a : ClientAccount) (amount : Amount) : ClientAccount :=
  { a with held := a.held - amount }

/-- `ClientAccount::freeze`. -/
def freeze (a : ClientAccount) : ClientAccount :=
  { a with frozen := true }

/-- `ClientAccount::is_frozen`. -/
def is_frozen (a : ClientAccount) : Bool := a.frozen

end ClientAccount

/-- `Transaction` (src/model.rs). -/
inductive Transaction where
  | Deposit (client : ClientId) (tx : TxId) (amount : Amount)
  | Withdrawal (client : ClientId) (tx : TxId) (amount : Amount)
  | Dispute (client : ClientId) (tx : TxId)
  | Resolve (client : ClientId) (tx : TxId)
  | Chargeback (client : ClientId) (tx : TxId)
deriving DecidableEq, Repr

/-- `DepositError` (src/engine/error.rs, as used by src/engine/mod.rs). -/
inductive DepositError where
  | AccountFrozen (client : ClientId)
  | DuplicateTxId (tx : TxId)
deriving DecidableEq, Repr

/-- `WithdrawalError` (src/engine/error.rs, as used by src/engine/mod.rs). -/
inductive WithdrawalError where
  | AccountFrozen (client : ClientId)
  | InsufficientFunds (client : ClientId) (available amount : Amount)
  | DuplicateTxId (tx : TxId)
deriving DecidableEq, Repr

/-- `DepositOperation` tag used by the dispute-lifecycle errors. -/
inductive DepositOperation where
  | Dispute
  | Resolve
  | Chargeback
deriving DecidableEq, Repr

/-- `DepositOperationError` (shared by dispute / resolve / chargeback). -/
inductive DepositOperationError where
  | TxNotFound (op : DepositOperation) (tx : TxId)
  | ClientMismatch (op : DepositOperation) (tx : TxId) (expected actual : ClientId)
  | InvalidState (op : DepositOperation) (tx : TxId)
  | ClientNotFound (op : DepositOperation) (client : ClientId)
deriving DecidableEq, Repr

/-- `EngineError` (top-level error of `Engine::apply`). -/
inductive EngineError where
  | Deposit (e : DepositError)
  | Withdrawal (e : WithdrawalError)
  | DepositOperation (e : DepositOperationError)
deriving DecidableEq, Repr

/-- Map an error through a `Result` (Rust's `?` + `From` conversion). -/
def mapErr {ε ε' α : Type} (f : ε → ε') : Except ε α → Except ε' α
  | Except.ok a => Except.ok a
  | Except.error e => Except.error (f e)

/-- First-occurrence lookup in an association list (`HashMap::get`). -/
def lookupA {β : Type} (k : Nat) : List (Nat × β) → Option β
  | [] => none
  | (k', v) :: rest => if k' = k then some v else lookupA k rest

/-- Insert-or-replace in an association list (`HashMap::insert`). -/
def insertA {β : Type} (k : Nat) (v : β) : List (Nat × β) → List (Nat × β)
  | [] => [(k, v)]
  | (k', v') :: rest => if k' = k then (k, v) :: rest else (k', v') :: insertA k v rest

/-- Remove a key from an association list (`HashMap::remove`). -/
def eraseA {β : Type} (k : Nat) : List (Nat × β) → List (Nat × β)
  | [] => []
  | (k', v') :: rest => if k' = k then rest else (k', v') :: eraseA k rest

/-- Membership test in a list set (`HashSet::contains`). -/
def containsS (k : Nat) : List Nat → Bool
  | [] => false
  | k' :: rest => if k' = k then true else containsS k rest

/-- Insert in a list set (`HashSet::insert`). -/
def insertS (k : Nat) (s : List Nat) : List Nat :=
  if containsS k s then s else k :: s

/-- `Engine` (src/engine/mod.rs): accounts, deposit records, withdrawal ids. -/
structure Engine where
  clients : List (ClientId × ClientAccount)
  deposits : List (TxId × DepositRecord)
  withdrawal_ids : List TxId
deriving DecidableEq, Repr

namespace Engine

/-- `Engine::new`: all three tables empty. -/
def new : Engine := ⟨[], [], []⟩

/-- `Engine::get_client`. -/
def get_client (e : Engine) (client : ClientId) : Option ClientAccount :=
  lookupA client e.clients

/-- `Engine::is_unique`: the tx id is in neither table. -/
def is_unique (e : Engine) (tx : TxId) : Bool :=
  (lookupA tx e.deposits).isNone && !(containsS tx e.withdrawal_ids)

/-- `Engine::apply_deposit` (src/engine/mod.rs lines 150-175), with the
post-state returned alongside the `Result`. The `entry(..).or_insert_with`
account creation happens before the frozen check, as in the source. -/
def apply_deposit (e : Engine) (client : ClientId) (tx : TxId) (amount : Amount) :
    Except DepositError Unit × Engine :=
  if e.is_unique tx = false then
    (Except.error (DepositError.DuplicateTxId tx), e)
  else
    let account := (lookupA client e.clients).getD (ClientAccount.new client)
    let e1 : Engine := { e with clients := insertA client account e.clients }
    if account.is_frozen then
      (Except.error (DepositError.AccountFrozen client), e1)
    else
      (Except.ok (),
        { e1 with
          clients := insertA client (account.credit amount) e1.clients
          deposits := insertA tx (DepositRecord.new client amount) e1.deposits })

/-- `Engine::apply_withdrawal` (src/engine/mod.rs lines 181-214). -/
def apply_withdrawal (e : Engine) (client : ClientId) (tx : TxId) (amount : Amount) :
    Except WithdrawalError Unit × Engine :=
  if e.is_unique tx = false then
    (Except.error (WithdrawalError.DuplicateTxId tx), e)
  else
    let account := (lookupA client e.clients).getD (ClientAccount.new client)
    let e1 : Engine := { e with clients := insertA client account e.clients }
    if account.is_frozen then
      (Except.error (WithdrawalError.AccountFrozen client), e1)
    else if account.available < amount then
      (Except.error (WithdrawalError.InsufficientFunds client account.available amount), e1)
    else
      (Except.ok (),
        { e1 with
          clients := insertA client (account.debit amount) e1.clients
          withdrawal_ids := insertS tx e1.withdrawal_ids })

/-- `Engine::apply_dispute` (src/engine/mod.rs lines 224-268). The record's
state is set to `Disputed` before the account lookup, as in the source, so
the `ClientNotFound` branch would leave that mutation behind. -/
def apply_dispute (e : Engine) (client : ClientId) (tx : TxId) :
    Except DepositOperationError Unit × Engine :=
  match lookupA tx e.deposits with
  | none => (Except.error (DepositOperationError.TxNotFound DepositOperation.Dispute tx), e)
  | some record =>
    if record.client ≠ client then
      (Except.error
        (DepositOperationError.ClientMismatch DepositOperation.Dispute tx record.client client), e)
    else if record.state = DepositState.Disputed then
      (Except.error (DepositOperationError.InvalidState DepositOperation.Dispute tx), e)
    else
      let e1 : Engine :=
        { e with deposits := insertA tx { record with state := DepositState.Disputed } e.deposits }
      match lookupA client e1.clients with
      | none =>
        (Except.error (DepositOperationError.ClientNotFound DepositOperation.Dispute client), e1)
      | some account =>
        (Except.ok (),
          { e1 with clients := insertA client (account.hold record.amount) e1.clients })

/-- `Engine::apply_resolve` (src/engine/mod.rs lines 275-310). -/
def apply_resolve (e : Engine) (client : ClientId) (tx : TxId) :
    Except DepositOperationError Unit × Engine :=
  match lookupA tx e.deposits with
  | none => (Except.error (DepositOperationError.TxNotFound DepositOperation.Resolve tx), e)
  | some record =>
    if record.client ≠ client then
      (Except.error
        (DepositOperationError.ClientMismatch DepositOperation.Resolve tx record.client client), e)
    else if record.state = DepositState.Ok then
      (Except.error (DepositOperationError.InvalidState DepositOperation.Resolve tx), e)
    else
      let e1 : Engine :=
        { e with deposits := insertA tx { record with state := DepositState.Ok } e.deposits }
      match lookupA client e1.clients with
      | none =>
        (Except.error (DepositOperationError.ClientNotFound DepositOperation.Resolve client), e1)
      | some account =>
        (Except.ok (),
          { e1 with clients := insertA client (account.release record.amount) e1.clients })

/-- `Engine::apply_chargeback` (src/engine/mod.rs lines 318-360). -/
def apply_chargeback (e : Engine) (client : ClientId) (tx : TxId) :
    Except DepositOperationError Unit × Engine :=
  match lookupA tx e.deposits with
  | none => (Except.error (DepositOperationError.TxNotFound DepositOperation.Chargeback tx), e)
  | some record =>
    if record.client ≠ client then
      (Except.error
        (DepositOperationError.ClientMismatch DepositOperation.Chargeback tx record.client client),
        e)
    else if record.state = DepositState.Ok then
      (Except.error (DepositOperationError.InvalidState DepositOperation.Chargeback tx), e)
    else
      match lookupA client e.clients with
      | none =>
        (Except.error (DepositOperationError.ClientNotFound DepositOperation.Chargeback client), e)
      | some account =>
        (Except.ok (),
          { e with
            clients := insertA client ((account.remove_held record.amount).freeze) e.clients
            deposits := eraseA tx e.deposits })

/-- `Engine::apply` (src/engine/mod.rs lines 62-91): dispatch by variant. -/
def apply (e : Engine) (t : Transaction) : Except EngineError Unit × Engine :=
  match t with
  | Transaction.Deposit client tx amount =>
    (mapErr EngineError.Deposit (e.apply_deposit client tx amount).1,
      (e.apply_deposit client tx amount).2)
  | Transaction.Withdrawal client tx amount =>
    (mapErr EngineError.Withdrawal (e.apply_withdrawal client tx amount).1,
      (e.apply_withdrawal client tx amount).2)
  | Transaction.Dispute client tx =>
    (mapErr EngineError.DepositOperation (e.apply_dispute client tx).1,
      (e.apply_dispute client tx).2)
  | Transaction.Resolve client tx =>
    (mapErr EngineError.DepositOperation (e.apply_resolve client tx).1,
      (e.apply_resolve client tx).2)
  | Transaction.Chargeback client tx =>
    (mapErr EngineError.DepositOperation (e.apply_chargeback client tx).1,
      (e.apply_chargeback client tx).2)

/-- `Engine::run` (src/engine/mod.rs lines 44-49): apply each transaction in
order, ignoring per-transaction errors. -/
def run (e : Engine) : List Transaction → Engine
  | [] => e
  | t :: ts => Engine.run (e.apply t).2 ts

end Engine

/-- Engine states reachable from `Engine::new` by a sequence of applies. -/
def Reachable (e : Engine) : Prop :=
  ∃ txs : List Transaction, Engine.run Engine.new txs = e

/-- Sum of `total` (available + held) over the accounts table. -/
def totalSum : List (ClientId × ClientAccount) → Amount
  | [] => 0
  | (_, a) :: rest => a.total + totalSum rest

/-- Contribution of one deposit record to client `c`'s held balance:
its amount when it is `c`'s record and currently disputed, else 0. -/
def heldContrib (c : ClientId) (r : DepositRecord) : Amount :=
  if r.client = c ∧ r.state = DepositState.Disputed then r.amount else 0

/-- Sum of the amounts of client `c`'s currently disputed deposit records. -/
def disputedSum (c : ClientId) : List (TxId × DepositRecord) → Amount
  | [] => 0
  | (_, r) :: rest => heldContrib c r + disputedSum c rest

/-- The amount recorded in the deposits table for `tx` (0 when absent);
for a successful chargeback this is the amount removed from `total`. -/
def recordedAmount (e : Engine) (tx : TxId) : Amount :=
  match lookupA tx e.deposits with
  | some r => r.amount
  | none => 0

/-- The contribution of one `apply` to the three ledger sums
(applied deposit amount, applied withdrawal amount, applied chargeback
amount — the amount recorded for the tx at application time); a failed
transaction contributes nothing. -/
def ledgerDelta (e : Engine) (t : Transaction) : Amount × Amount × Amount :=
  match (e.apply t).1, t with
  | Except.ok _, Transaction.Deposit _ _ a => (a, 0, 0)
  | Except.ok _, Transaction.Withdrawal _ _ a => (0, a, 0)
  | Except.ok _, Transaction.Chargeback _ tx => (0, 0, recordedAmount e tx)
  | _, _ => (0, 0, 0)

/-- Run the engine over a transaction list, also accumulating the sums of
the amounts of the deposits, withdrawals and chargebacks that succeeded. -/
def runLedger (e : Engine) : List Transaction → Engine × Amount × Amount × Amount
  | [] => (e, 0, 0, 0)
  | t :: ts =>
    let rest := runLedger (e.apply t).2 ts
    (rest.1, (ledgerDelta e t).1 + rest.2.1, (ledgerDelta e t).2.1 + rest.2.2.1,
      (ledgerDelta e t).2.2 + rest.2.2.2)

/-- A transaction's carried amount is non-negative (vacuous for the
dispute-lifecycle variants, which carry none). -/
def amountOk : Transaction → Bool
  | Transaction.Deposit _ _ a => decide (0 ≤ a)
  | Transaction.Withdrawal _ _ a => decide (0 ≤ a)
  | _ => true

/-- The keys of an association list. -/
def keysOf {β : Type} : List (Nat × β) → List Nat
  | [] => []
  | (k, _) :: rest => k :: keysOf rest

/-- Every deposit record's client has an account (rules out the
`ClientNotFound` branches). -/
def InvClients (e : Engine) : Prop :=
  ∀ p ∈ e.deposits, (lookupA p.2.client e.clients).isSome = true

/-- No tx id is both a deposits-map key and a withdrawal id. -/
def InvDisjoint (e : Engine) : Prop :=
  ∀ tx : TxId, (lookupA tx e.deposits).isSome = true → containsS tx e.withdrawal_ids = false

/-- Every account's held balance equals the sum of its disputed records. -/
def InvHeld (e : Engine) : Prop :=
  ∀ c acc, lookupA c e.clients = some acc → acc.held = disputedSum c e.deposits

/-- The deposits table has no duplicate keys (it embeds a map). -/
def InvKeys (e : Engine) : Prop :=
  (keysOf e.deposits).Nodup

/-- The inductive invariant of the engine. -/
def Invariant (e : Engine) : Prop :=
  InvKeys e ∧ InvClients e ∧ InvDisjoint e ∧ InvHeld e

/-- All deposit records carry non-negative amounts. -/
def InvAmounts (e : Engine) : Prop :=
  ∀ p ∈ e.deposits, 0 ≤ p.2.amount

section AssocLemmas

variable {β : Type}

theorem lookupA_insertA_self (k : Nat) (v : β) (l : List (Nat × β)) :
    lookupA k (insertA k v l) = some v := by
  induction l with
  | nil => simp [insertA, lookupA]
  | cons p rest ih =>
    rcases p with ⟨k', v'⟩
    by_cases h : k' = k
    · subst h; simp [insertA, lookupA]
    · simp [insertA, lookupA, h, ih]

theorem lookupA_insertA_ne {k' k : Nat} (h : k' ≠ k) (v : β) (l : List (Nat × β)) :
    lookupA k (insertA k' v l) = lookupA k l := by
  induction l with
  | nil => simp [insertA, lookupA, h]
  | cons p rest ih =>
    rcases p with ⟨j, w⟩
    by_cases hj : j = k'
    · subst hj; simp [insertA, lookupA, h]
    · by_cases hk : j = k
      · subst hk; simp [insertA, lookupA, hj, h]
      · simp [insertA, lookupA, hj, hk, ih]

theorem insertA_self_of_lookupA {k : Nat} {v : β} {l : List (Nat × β)}
    (h : lookupA k l = some v) : insertA k v l = l := by
  induction l with
  | nil => simp [lookupA] at h
  | cons p rest ih =>
    rcases p with ⟨j, w⟩
    by_cases hj : j = k
    · subst hj
      simp [lookupA] at h
      simp [insertA, h]
    · simp [lookupA, hj] at h
      simp [insertA, hj, ih h]

theorem lookupA_mem {k : Nat} {v : β} {l : List (Nat × β)}
    (h : lookupA k l = some v) : (k, v) ∈ l := by
  induction l with
  | nil => simp [lookupA] at h
  | cons p rest ih =>
    rcases p with ⟨j, w⟩
    by_cases hj : j = k
    · subst hj
      simp [lookupA] at h
      simp [h]
    · simp [lookupA, hj] at h
      exact List.mem_cons_of_mem _ (ih h)

theorem mem_insertA {p : Nat × β} {k : Nat} {v : β} {l : List (Nat × β)}
    (h : p ∈ insertA k v l) : p = (k, v) ∨ p ∈ l := by
  induction l with
  | nil => simp [insertA] at h; simp [h]
  | cons q rest ih =>
    rcases q with ⟨j, w⟩
    by_cases hj : j = k
    · subst hj
      simp [insertA] at h
      rcases h with h | h
      · exact Or.inl h
      · exact Or.inr (List.mem_cons_of_mem _ h)
    · simp [insertA, hj] at h
      rcases h with h | h
      · exact Or.inr (by simp [h])
      · rcases ih h with h' | h'
        · exact Or.inl h'
        · exact Or.inr (List.mem_cons_of_mem _ h')

theorem mem_eraseA {p : Nat × β} {k : Nat} {l : List (Nat × β)}
    (h : p ∈ eraseA k l) : p ∈ l := by
  induction l with
  | nil => simp [eraseA] at h
  | cons q rest ih =>
    rcases q with ⟨j, w⟩
    by_cases hj : j = k
    · subst hj
      simp [eraseA] at h
      exact List.mem_cons_of_mem _ h
    · simp [eraseA, hj] at h
      rcases h with h | h
      · simp [h]
      · exact List.mem_cons_of_mem _ (ih h)

theorem lookupA_eraseA_ne {k' k : Nat} (h : k' ≠ k) (l : List (Nat × β)) :
    lookupA k (eraseA k' l) = lookupA k l := by
  induction l with
  | nil => simp [eraseA]
  | cons p rest ih =>
    rcases p with ⟨j, w⟩
    by_cases hj : j = k'
    · subst hj; simp [eraseA, lookupA, h]
    · by_cases hk : j = k
      · subst hk; simp [eraseA, lookupA, hj]
      · simp [eraseA, lookupA, hj, hk, ih]

theorem lookupA_eq_none_of_not_mem_keys {k : Nat} {l : List (Nat × β)}
    (h : k ∉ keysOf l) : lookupA k l = none := by
  induction l with
  | nil => simp [lookupA]
  | cons p rest ih =>
    rcases p with ⟨j, w⟩
    simp [keysOf] at h
    push_neg at h
    have hj : ¬ j = k := fun hh => h.1 hh.symm
    simp [lookupA, hj, ih h.2]

theorem mem_keys_insertA {j k : Nat} {v : β} {l : List (Nat × β)}
    (h : j ∈ keysOf (insertA k v l)) : j = k ∨ j ∈ keysOf l := by
  induction l with
  | nil => simp [insertA, keysOf] at h; exact Or.inl h
  | cons p rest ih =>
    rcases p with ⟨i, w⟩
    by_cases hi : i = k
    · subst hi
      simp [insertA, keysOf] at h ⊢
      exact h
    · simp [insertA, hi, keysOf] at h ⊢
      rcases h with h | h
      · exact Or.inr (Or.inl h)
      · rcases ih h with h' | h'
        · exact Or.inl h'
        · exact Or.inr (Or.inr h')

theorem keysNodup_insertA {k : Nat} {v : β} {l : List (Nat × β)}
    (h : (keysOf l).Nodup) : (keysOf (insertA k v l)).Nodup := by
  induction l with
  | nil => simp [insertA, keysOf]
  | cons p rest ih =>
    rcases p with ⟨j, w⟩
    simp [keysOf] at h
    by_cases hj : j = k
    · subst hj
      simp [insertA, keysOf]
      exact h
    · simp [insertA, hj, keysOf]
      refine ⟨fun hmem => ?_, ih h.2⟩
      rcases mem_keys_insertA hmem with h' | h'
      · exact hj h'
      · exact h.1 h'

theorem mem_keys_eraseA {j k : Nat} {l : List (Nat × β)}
    (h : j ∈ keysOf (eraseA k l)) : j ∈ keysOf l := by
  induction l with
  | nil => simp [eraseA, keysOf] at h
  | cons p rest ih =>
    rcases p with ⟨i, w⟩
    by_cases hi : i = k
    · subst hi
      simp [eraseA, keysOf] at h ⊢
      exact Or.inr h
    · simp [eraseA, hi, keysOf] at h ⊢
      rcases h with h | h
      · exact Or.inl h
      · exact Or.inr (ih h)

theorem keysNodup_eraseA {k : Nat} {l : List (Nat × β)}
    (h : (keysOf l).Nodup) : (keysOf (eraseA k l)).Nodup := by
  induction l with
  | nil => simp [eraseA, keysOf]
  | cons p rest ih =>
    rcases p with ⟨j, w⟩
    simp [keysOf] at h
    by_cases hj : j = k
    · subst hj
      simp [eraseA]
      exact h.2
    · simp [eraseA, hj, keysOf]
      exact ⟨fun hmem => h.1 (mem_keys_eraseA hmem), ih h.2⟩

theorem lookupA_eraseA_self {k : Nat} {l : List (Nat × β)}
    (h : (keysOf l).Nodup) : lookupA k (eraseA k l) = none := by
  induction l with
  | nil => simp [eraseA, lookupA]
  | cons p rest ih =>
    rcases p with ⟨j, w⟩
    simp [keysOf] at h
    by_cases hj : j = k
    · subst hj
      simp [eraseA]
      exact lookupA_eq_none_of_not_mem_keys h.1
    · simp [eraseA, lookupA, hj, ih h.2]

theorem containsS_iff_mem {k : Nat} {s : List Nat} :
    containsS k s = true ↔ k ∈ s := by
  induction s with
  | nil => simp [containsS]
  | cons j rest ih =>
    by_cases hj : j = k
    · subst hj; simp [containsS]
    · have hk : ¬ k = j := fun h => hj h.symm
      simp [containsS, hj, ih, hk]

theorem containsS_insertS {j k : Nat} {s : List Nat} :
    containsS j (insertS k s) = true ↔ j = k ∨ containsS j s = true := by
  unfold insertS
  by_cases hc : containsS k s = true
  · simp [hc]
    intro hj
    subst hj
    exact hc
  · by_cases hk : k = j
    · subst hk
      simp [hc, containsS]
    · simp [hc, containsS, hk]
      intro hj
      exact absurd hj.symm hk

end AssocLemmas

section SumLemmas

theorem lookupA_insertA_isSome {k c : Nat} {β : Type} {v : β} {l : List (Nat × β)}
    (h : (lookupA c l).isSome = true) : (lookupA c (insertA k v l)).isSome = true := by
  by_cases hk : k = c
  · subst hk; simp [lookupA_insertA_self]
  · rw [lookupA_insertA_ne hk]; exact h

theorem is_unique_iff {e : Engine} {tx : TxId} :
    e.is_unique tx = true ↔
      lookupA tx e.deposits = none ∧ containsS tx e.withdrawal_ids = false := by
  simp [Engine.is_unique, Option.isNone_iff_eq_none]

theorem totalSum_insertA_some {k : Nat} {a v : ClientAccount}
    {l : List (ClientId × ClientAccount)} (h : lookupA k l = some a) :
    totalSum (insertA k v l) = totalSum l - a.total + v.total := by
  induction l with
  | nil => simp [lookupA] at h
  | cons p rest ih =>
    rcases p with ⟨j, w⟩
    by_cases hj : j = k
    · subst hj
      simp [lookupA] at h
      subst h
      simp [insertA, totalSum]
      ring
    · simp [lookupA, hj] at h
      simp [insertA, hj, totalSum, ih h]
      ring

theorem totalSum_insertA_none {k : Nat} {v : ClientAccount}
    {l : List (ClientId × ClientAccount)} (h : lookupA k l = none) :
    totalSum (insertA k v l) = totalSum l + v.total := by
  induction l with
  | nil => simp [insertA, totalSum]
  | cons p rest ih =>
    rcases p with ⟨j, w⟩
    by_cases hj : j = k
    · subst hj; simp [lookupA] at h
    · simp [lookupA, hj] at h
      simp [insertA, hj, totalSum, ih h]
      ring

theorem disputedSum_insertA_some {c : ClientId} {k : Nat} {r r' : DepositRecord}
    {l : List (TxId × DepositRecord)} (h : lookupA k l = some r) :
    disputedSum c (insertA k r' l) =
      disputedSum c l - heldContrib c r + heldContrib c r' := by
  induction l with
  | nil => simp [lookupA] at h
  | cons p rest ih =>
    rcases p with ⟨j, w⟩
    by_cases hj : j = k
    · subst hj
      simp [lookupA] at h
      subst h
      simp [insertA, disputedSum]
      ring
    · simp [lookupA, hj] at h
      simp [insertA, hj, disputedSum, ih h]
      ring

theorem disputedSum_insertA_none {c : ClientId} {k : Nat} {r : DepositRecord}
    {l : List (TxId × DepositRecord)} (h : lookupA k l = none) :
    disputedSum c (insertA k r l) = disputedSum c l + heldContrib c r := by
  induction l with
  | nil => simp [insertA, disputedSum]
  | cons p rest ih =>
    rcases p with ⟨j, w⟩
    by_cases hj : j = k
    · subst hj; simp [lookupA] at h
    · simp [lookupA, hj] at h
      simp [insertA, hj, disputedSum, ih h]
      ring

theorem disputedSum_eraseA_some {c : ClientId} {k : Nat} {r : DepositRecord}
    {l : List (TxId × DepositRecord)} (h : lookupA k l = some r) :
    disputedSum c (eraseA k l) = disputedSum c l - heldContrib c r := by
  induction l with
  | nil => simp [lookupA] at h
  | cons p rest ih =>
    rcases p with ⟨j, w⟩
    by_cases hj : j = k
    · subst hj
      simp [lookupA] at h
      subst h
      simp [eraseA, disputedSum]
    · simp [lookupA, hj] at h
      simp [eraseA, hj, disputedSum, ih h]
      ring

theorem disputedSum_eq_zero {c : ClientId} {l : List (TxId × DepositRecord)}
    (h : ∀ p ∈ l, p.2.client ≠ c) : disputedSum c l = 0 := by
  induction l with
  | nil => simp [disputedSum]
  | cons p rest ih =>
    have hp : p.2.client ≠ c := h p (by simp)
    have hrest : ∀ q ∈ rest, q.2.client ≠ c := fun q hq => h q (List.mem_cons_of_mem _ hq)
    rcases p with ⟨j, r⟩
    simp [disputedSum, heldContrib, hp, ih hrest]

theorem heldContrib_nonneg {c : ClientId} {r : DepositRecord}
    (h : 0 ≤ r.amount) : 0 ≤ heldContrib c r := by
  unfold heldContrib
  split
  · exact h
  · exact le_refl 0

theorem disputedSum_nonneg {c : ClientId} {l : List (TxId × DepositRecord)}
    (h : ∀ p ∈ l, 0 ≤ p.2.amount) : 0 ≤ disputedSum c l := by
  induction l with
  | nil => simp [disputedSum]
  | cons p rest ih =>
    have hrest : ∀ q ∈ rest, (0 : Amount) ≤ q.2.amount :=
      fun q hq => h q (List.mem_cons_of_mem _ hq)
    rcases p with ⟨j, r⟩
    have hp : (0 : Amount) ≤ r.amount := h (j, r) (by simp)
    have h1 := heldContrib_nonneg (c := c) hp
    have h2 := ih hrest
    simp only [disputedSum]
    exact add_nonneg h1 h2

end SumLemmas

section InvariantPreservation

theorem heldContrib_new (c client : ClientId) (amount : Amount) :
    heldContrib c (DepositRecord.new client amount) = 0 := by
  simp [heldContrib, DepositRecord.new]

theorem disputedSum_zero_of_no_account {e : Engine} {c : ClientId}
    (hcl : InvClients e) (hacc : lookupA c e.clients = none) :
    disputedSum c e.deposits = 0 := by
  refine disputedSum_eq_zero fun p hp heq => ?_
  have := hcl p hp
  rw [heq, hacc] at this
  simp at this

theorem invariant_apply_deposit {e : Engine} (client : ClientId) (tx : TxId) (amount : Amount)
    (h : Invariant e) : Invariant (e.apply_deposit client tx amount).2 := by
  obtain ⟨hkeys, hcl, hdis, hheld⟩ := h
  unfold Engine.apply_deposit
  cases hb : e.is_unique tx with
  | false =>
    simp [hb]
    exact ⟨hkeys, hcl, hdis, hheld⟩
  | true =>
    obtain ⟨hdep, hwid⟩ := is_unique_iff.mp hb
    cases hacc : lookupA client e.clients with
    | none =>
      simp [hb, hacc, ClientAccount.is_frozen, ClientAccount.new]
      refine ⟨keysNodup_insertA hkeys, ?_, ?_, ?_⟩
      · intro p hp
        rcases mem_insertA hp with rfl | hold
        · simp [DepositRecord.new]
          exact lookupA_insertA_isSome (by simp [lookupA_insertA_self])
        · exact lookupA_insertA_isSome (lookupA_insertA_isSome (hcl p hold))
      · intro tx' hsome
        by_cases htx : tx = tx'
        · subst htx
          exact hwid
        · rw [lookupA_insertA_ne htx] at hsome
          exact hdis tx' hsome
      · intro c acc'' hlk
        rw [disputedSum_insertA_none hdep, heldContrib_new, add_zero]
        by_cases hc : client = c
        · subst hc
          rw [lookupA_insertA_self] at hlk
          cases hlk
          have hz := disputedSum_zero_of_no_account hcl hacc
          simp [ClientAccount.credit, ClientAccount.new, hz]
        · rw [lookupA_insertA_ne hc, lookupA_insertA_ne hc] at hlk
          exact hheld c acc'' hlk
    | some acc =>
      have hins : insertA client acc e.clients = e.clients := insertA_self_of_lookupA hacc
      cases hfr : acc.is_frozen with
      | true =>
        simp [hb, hacc, hfr, hins]
        exact ⟨hkeys, hcl, hdis, hheld⟩
      | false =>
        simp [hb, hacc, hfr, hins]
        refine ⟨keysNodup_insertA hkeys, ?_, ?_, ?_⟩
        · intro p hp
          rcases mem_insertA hp with rfl | hold
          · simp [DepositRecord.new]
            exact (by simp [lookupA_insertA_self])
          · exact lookupA_insertA_isSome (hcl p hold)
        · intro tx' hsome
          by_cases htx : tx = tx'
          · subst htx
            exact hwid
          · rw [lookupA_insertA_ne htx] at hsome
            exact hdis tx' hsome
        · intro c acc'' hlk
          rw [disputedSum_insertA_none hdep, heldContrib_new, add_zero]
          by_cases hc : client = c
          · subst hc
            rw [lookupA_insertA_self] at hlk
            cases hlk
            have := hheld client acc hacc
            simp [ClientAccount.credit, this]
          · rw [lookupA_insertA_ne hc] at hlk
            exact hheld c acc'' hlk

theorem invariant_apply_withdrawal {e : Engine} (client : ClientId) (tx : TxId) (amount : Amount)
    (h : Invariant e) : Invariant (e.apply_withdrawal client tx amount).2 := by
  obtain ⟨hkeys, hcl, hdis, hheld⟩ := h
  unfold Engine.apply_withdrawal
  cases hb : e.is_unique tx with
  | false =>
    simp [hb]
    exact ⟨hkeys, hcl, hdis, hheld⟩
  | true =>
    obtain ⟨hdep, hwid⟩ := is_unique_iff.mp hb
    have hdisj2 : ∀ tx' : TxId, (lookupA tx' e.deposits).isSome = true →
        containsS tx' (insertS tx e.withdrawal_ids) = false := by
      intro tx' hsome
      cases hcc : containsS tx' (insertS tx e.withdrawal_ids) with
      | false => rfl
      | true =>
        rcases containsS_insertS.mp hcc with h1 | h2
        · subst h1
          rw [hdep] at hsome
          simp at hsome
        · rw [hdis tx' hsome] at h2
          simp at h2
    cases hacc : lookupA client e.clients with
    | none =>
      simp only [hb, hacc, Option.getD]
      simp [ClientAccount.is_frozen, ClientAccount.new]
      by_cases hlt : (0 : Amount) < amount
      · simp [hlt]
        refine ⟨hkeys, ?_, hdis, ?_⟩
        · intro p hp
          exact lookupA_insertA_isSome (hcl p hp)
        · intro c acc'' hlk
          by_cases hc : client = c
          · subst hc
            rw [lookupA_insertA_self] at hlk
            cases hlk
            have hz := disputedSum_zero_of_no_account hcl hacc
            simp [ClientAccount.new, hz]
          · rw [lookupA_insertA_ne hc] at hlk
            exact hheld c acc'' hlk
      · simp [hlt]
        refine ⟨hkeys, ?_, hdisj2, ?_⟩
        · intro p hp
          exact lookupA_insertA_isSome (lookupA_insertA_isSome (hcl p hp))
        · intro c acc'' hlk
          by_cases hc : client = c
          · subst hc
            rw [lookupA_insertA_self] at hlk
            cases hlk
            have hz := disputedSum_zero_of_no_account hcl hacc
            simp [ClientAccount.debit, ClientAccount.new, hz]
          · rw [lookupA_insertA_ne hc, lookupA_insertA_ne hc] at hlk
            exact hheld c acc'' hlk
    | some acc =>
      have hins : insertA client acc e.clients = e.clients := insertA_self_of_lookupA hacc
      cases hfr : acc.is_frozen with
      | true =>
        simp [hb, hacc, hfr, hins]
        exact ⟨hkeys, hcl, hdis, hheld⟩
      | false =>
        by_cases hlt : acc.available < amount
        · simp [hb, hacc, hfr, hins, hlt]
          exact ⟨hkeys, hcl, hdis, hheld⟩
        · simp [hb, hacc, hfr, hins, hlt]
          refine ⟨hkeys, ?_, hdisj2, ?_⟩
          · intro p hp
            exact lookupA_insertA_isSome (hcl p hp)
          · intro c acc'' hlk
            by_cases hc : client = c
            · subst hc
              rw [lookupA_insertA_self] at hlk
              cases hlk
              have := hheld client acc hacc
              simp [ClientAccount.debit, this]
            · rw [lookupA_insertA_ne hc] at hlk
              exact hheld c acc'' hlk

theorem invariant_apply_dispute {e : Engine} (client : ClientId) (tx : TxId)
    (h : Invariant e) : Invariant (e.apply_dispute client tx).2 := by
  obtain ⟨hkeys, hcl, hdis, hheld⟩ := h
  unfold Engine.apply_dispute
  cases hrec : lookupA tx e.deposits with
  | none =>
    simp [hrec]
    exact ⟨hkeys, hcl, hdis, hheld⟩
  | some record =>
    by_cases hcm : record.client = client
    · by_cases hst : record.state = DepositState.Disputed
      · simp [hrec, hcm, hst]
        exact ⟨hkeys, hcl, hdis, hheld⟩
      · have hmem : (tx, record) ∈ e.deposits := lookupA_mem hrec
        have hsome : (lookupA client e.clients).isSome = true := by
          have := hcl _ hmem
          rwa [hcm] at this
        cases hacc : lookupA client e.clients with
        | none => rw [hacc] at hsome; simp at hsome
        | some account =>
          simp [hrec, hcm, hst, hacc]
          refine ⟨keysNodup_insertA hkeys, ?_, ?_, ?_⟩
          · intro p hp
            rcases mem_insertA hp with rfl | hold
            · simp [hcm]
              exact (by simp [lookupA_insertA_self])
            · exact lookupA_insertA_isSome (hcl p hold)
          · intro tx' hsome'
            by_cases htx : tx = tx'
            · subst htx
              exact hdis tx (by simp [hrec])
            · rw [lookupA_insertA_ne htx] at hsome'
              exact hdis tx' hsome'
          · intro c acc'' hlk
            rw [disputedSum_insertA_some hrec]
            have hc0 : heldContrib c record = 0 := by
              simp [heldContrib, hst]
            by_cases hc : client = c
            · subst hc
              rw [lookupA_insertA_self] at hlk
              cases hlk
              have hbal := hheld client account hacc
              rw [hc0]
              simp [heldContrib, ClientAccount.hold, hbal]
            · rw [lookupA_insertA_ne hc] at hlk
              rw [hc0]
              simp [heldContrib, hc]
              simpa using hheld c acc'' hlk
    · simp [hrec, hcm]
      exact ⟨hkeys, hcl, hdis, hheld⟩

theorem invariant_apply_resolve {e : Engine} (client : ClientId) (tx : TxId)
    (h : Invariant e) : Invariant (e.apply_resolve client tx).2 := by
  obtain ⟨hkeys, hcl, hdis, hheld⟩ := h
  unfold Engine.apply_resolve
  cases hrec : lookupA tx e.deposits with
  | none =>
    simp [hrec]
    exact ⟨hkeys, hcl, hdis, hheld⟩
  | some record =>
    by_cases hcm : record.client = client
    · by_cases hst : record.state = DepositState.Ok
      · simp [hrec, hcm, hst]
        exact ⟨hkeys, hcl, hdis, hheld⟩
      · have hst' : record.state = DepositState.Disputed := by
          cases hd : record.state
          · exact absurd hd hst
          · rfl
        have hmem : (tx, record) ∈ e.deposits := lookupA_mem hrec
        have hsome : (lookupA client e.clients).isSome = true := by
          have := hcl _ hmem
          rwa [hcm] at this
        cases hacc : lookupA client e.clients with
        | none => rw [hacc] at hsome; simp at hsome
        | some account =>
          simp [hrec, hcm, hst, hacc]
          refine ⟨keysNodup_insertA hkeys, ?_, ?_, ?_⟩
          · intro p hp
            rcases mem_insertA hp with rfl | hold
            · simp [hcm]
              exact (by simp [lookupA_insertA_self])
            · exact lookupA_insertA_isSome (hcl p hold)
          · intro tx' hsome'
            by_cases htx : tx = tx'
            · subst htx
              exact hdis tx (by simp [hrec])
            · rw [lookupA_insertA_ne htx] at hsome'
              exact hdis tx' hsome'
          · intro c acc'' hlk
            rw [disputedSum_insertA_some hrec]
            by_cases hc : client = c
            · subst hc
              rw [lookupA_insertA_self] at hlk
              cases hlk
              have hbal := hheld client account hacc
              have hc0 : heldContrib client record = record.amount := by
                simp [heldContrib, hcm, hst']
              rw [hc0]
              simp [heldContrib, ClientAccount.release, hbal]
            · rw [lookupA_insertA_ne hc] at hlk
              have hc0 : heldContrib c record = 0 := by
                have : record.client ≠ c := by rw [hcm]; exact hc
                simp [heldContrib, this]
              rw [hc0]
              simp [heldContrib]
              simpa using hheld c acc'' hlk
    · simp [hrec, hcm]
      exact ⟨hkeys, hcl, hdis, hheld⟩

theorem invariant_apply_chargeback {e : Engine} (client : ClientId) (tx : TxId)
    (h : Invariant e) : Invariant (e.apply_chargeback client tx).2 := by
  obtain ⟨hkeys, hcl, hdis, hheld⟩ := h
  unfold Engine.apply_chargeback
  cases hrec : lookupA tx e.deposits with
  | none =>
    simp [hrec]
    exact ⟨hkeys, hcl, hdis, hheld⟩
  | some record =>
    by_cases hcm : record.client = client
    · by_cases hst : record.state = DepositState.Ok
      · simp [hrec, hcm, hst]
        exact ⟨hkeys, hcl, hdis, hheld⟩
      · have hst' : record.state = DepositState.Disputed := by
          cases hd : record.state
          · exact absurd hd hst
          · rfl
        have hmem : (tx, record) ∈ e.deposits := lookupA_mem hrec
        have hsome : (lookupA client e.clients).isSome = true := by
          have := hcl _ hmem
          rwa [hcm] at this
        cases hacc : lookupA client e.clients with
        | none => rw [hacc] at hsome; simp at hsome
        | some account =>
          simp [hrec, hcm, hst, hacc]
          refine ⟨keysNodup_eraseA hkeys, ?_, ?_, ?_⟩
          · intro p hp
            exact lookupA_insertA_isSome (hcl p (mem_eraseA hp))
          · intro tx' hsome'
            by_cases htx : tx = tx'
            · subst htx
              rw [lookupA_eraseA_self hkeys] at hsome'
              simp at hsome'
            · rw [lookupA_eraseA_ne htx] at hsome'
              exact hdis tx' hsome'
          · intro c acc'' hlk
            rw [disputedSum_eraseA_some hrec]
            by_cases hc : client = c
            · subst hc
              rw [lookupA_insertA_self] at hlk
              cases hlk
              have hbal := hheld client account hacc
              have hc0 : heldContrib client record = record.amount := by
                simp [heldContrib, hcm, hst']
              rw [hc0]
              simp [ClientAccount.freeze, ClientAccount.remove_held, hbal]
            · rw [lookupA_insertA_ne hc] at hlk
              have hc0 : heldContrib c record = 0 := by
                have : record.client ≠ c := by rw [hcm]; exact hc
                simp [heldContrib, this]
              rw [hc0]
              simpa using hheld c acc'' hlk
    · simp [hrec, hcm]
      exact ⟨hkeys, hcl, hdis, hheld⟩

theorem invariant_apply {e : Engine} (t : Transaction)
    (h : Invariant e) : Invariant (e.apply t).2 := by
  cases t with
  | Deposit client tx amount =>
    simpa [Engine.apply] using invariant_apply_deposit client tx amount h
  | Withdrawal client tx amount =>
    simpa [Engine.apply] using invariant_apply_withdrawal client tx amount h
  | Dispute client tx =>
    simpa [Engine.apply] using invariant_apply_dispute client tx h
  | Resolve client tx =>
    simpa [Engine.apply] using invariant_apply_resolve client tx h
  | Chargeback client tx =>
    simpa [Engine.apply] using invariant_apply_chargeback client tx h

theorem invariant_new : Invariant Engine.new := by
  refine ⟨?_, ?_, ?_, ?_⟩
  · simp [InvKeys, Engine.new, keysOf]
  · intro p hp
    simp [Engine.new] at hp
  · intro tx hsome
    simp [Engine.new, lookupA] at hsome
  · intro c acc hlk
    simp [Engine.new, lookupA] at hlk

theorem invariant_run {e : Engine} (txs : List Transaction)
    (h : Invariant e) : Invariant (Engine.run e txs) := by
  induction txs generalizing e with
  | nil => simpa [Engine.run] using h
  | cons t ts ih =>
    simp only [Engine.run]
    exact ih (invariant_apply t h)

theorem reachable_invariant {e : Engine} (h : Reachable e) : Invariant e := by
  obtain ⟨txs, htxs⟩ := h
  rw [← htxs]
  exact invariant_run txs invariant_new

end InvariantPreservation

section Conservation

theorem new_is_frozen (c : ClientId) : (ClientAccount.new c).is_frozen = false := rfl

theorem new_available (c : ClientId) : (ClientAccount.new c).available = 0 := rfl

theorem new_total (c : ClientId) : (ClientAccount.new c).total = 0 := rfl

theorem credit_total (a : ClientAccount) (amt : Amount) :
    (a.credit amt).total = a.total + amt := by
  simp [ClientAccount.credit, ClientAccount.total]
  ring

theorem debit_total (a : ClientAccount) (amt : Amount) :
    (a.debit amt).total = a.total - amt := by
  simp [ClientAccount.debit, ClientAccount.total]
  ring

theorem totalSum_apply_deposit_ok {e : Engine} {client : ClientId} {tx : TxId} {amount : Amount}
    (h : (e.apply_deposit client tx amount).1 = Except.ok ()) :
    totalSum (e.apply_deposit client tx amount).2.clients = totalSum e.clients + amount := by
  unfold Engine.apply_deposit at h ⊢
  cases hb : e.is_unique tx with
  | false => simp [hb] at h
  | true =>
    cases hacc : lookupA client e.clients with
    | none =>
      simp [hb, hacc, new_is_frozen]
      rw [totalSum_insertA_some (lookupA_insertA_self client (ClientAccount.new client) e.clients),
        totalSum_insertA_none hacc, credit_total, new_total]
      ring
    | some acc =>
      have hins : insertA client acc e.clients = e.clients := insertA_self_of_lookupA hacc
      cases hfr : acc.is_frozen with
      | true => simp [hb, hacc, hfr] at h
      | false =>
        simp [hb, hacc, hfr, hins]
        rw [totalSum_insertA_some hacc, credit_total]
        ring

theorem totalSum_apply_deposit_err {e : Engine} {client : ClientId} {tx : TxId} {amount : Amount}
    {err : DepositError} (h : (e.apply_deposit client tx amount).1 = Except.error err) :
    totalSum (e.apply_deposit client tx amount).2.clients = totalSum e.clients := by
  unfold Engine.apply_deposit at h ⊢
  cases hb : e.is_unique tx with
  | false => simp [hb]
  | true =>
    cases hacc : lookupA client e.clients with
    | none => simp [hb, hacc, new_is_frozen] at h
    | some acc =>
      have hins : insertA client acc e.clients = e.clients := insertA_self_of_lookupA hacc
      cases hfr : acc.is_frozen with
      | true => simp [hb, hacc, hfr, hins]
      | false => simp [hb, hacc, hfr, hins] at h

theorem totalSum_apply_withdrawal_ok {e : Engine} {client : ClientId} {tx : TxId} {amount : Amount}
    (h : (e.apply_withdrawal client tx amount).1 = Except.ok ()) :
    totalSum (e.apply_withdrawal client tx amount).2.clients = totalSum e.clients - amount := by
  unfold Engine.apply_withdrawal at h ⊢
  cases hb : e.is_unique tx with
  | false => simp [hb] at h
  | true =>
    cases hacc : lookupA client e.clients with
    | none =>
      by_cases hlt : (0 : Amount) < amount
      · simp [hb, hacc, new_is_frozen, new_available, hlt] at h
      · simp [hb, hacc, new_is_frozen, new_available, hlt]
        rw [totalSum_insertA_some (lookupA_insertA_self client (ClientAccount.new client) e.clients),
          totalSum_insertA_none hacc, debit_total, new_total]
        ring
    | some acc =>
      have hins : insertA client acc e.clients = e.clients := insertA_self_of_lookupA hacc
      cases hfr : acc.is_frozen with
      | true => simp [hb, hacc, hfr] at h
      | false =>
        by_cases hlt : acc.available < amount
        · simp [hb, hacc, hfr, hlt] at h
        · simp [hb, hacc, hfr, hlt, hins]
          rw [totalSum_insertA_some hacc, debit_total]
          ring

theorem totalSum_apply_withdrawal_err {e : Engine} {client : ClientId} {tx : TxId}
    {amount : Amount} {err : WithdrawalError}
    (h : (e.apply_withdrawal client tx amount).1 = Except.error err) :
    totalSum (e.apply_withdrawal client tx amount).2.clients = totalSum e.clients := by
  unfold Engine.apply_withdrawal at h ⊢
  cases hb : e.is_unique tx with
  | false => simp [hb]
  | true =>
    cases hacc : lookupA client e.clients with
    | none =>
      by_cases hlt : (0 : Amount) < amount
      · simp [hb, hacc, new_is_frozen, new_available, hlt]
        rw [totalSum_insertA_none hacc, new_total]
        ring
      · simp [hb, hacc, new_is_frozen, new_available, hlt] at h
    | some acc =>
      have hins : insertA client acc e.clients = e.clients := insertA_self_of_lookupA hacc
      cases hfr : acc.is_frozen with
      | true => simp [hb, hacc, hfr, hins]
      | false =>
        by_cases hlt : acc.available < amount
        · simp [hb, hacc, hfr, hlt, hins]
        · simp [hb, hacc, hfr, hlt, hins] at h

theorem totalSum_apply_dispute {e : Engine} (client : ClientId) (tx : TxId) :
    totalSum (e.apply_dispute client tx).2.clients = totalSum e.clients := by
  unfold Engine.apply_dispute
  cases hrec : lookupA tx e.deposits with
  | none => simp [hrec]
  | some record =>
    by_cases hcm : record.client = client
    · by_cases hst : record.state = DepositState.Disputed
      · simp [hrec, hcm, hst]
      · cases hacc : lookupA client e.clients with
        | none => simp [hrec, hcm, hst, hacc]
        | some account =>
          simp [hrec, hcm, hst, hacc]
          rw [totalSum_insertA_some hacc]
          simp [ClientAccount.hold, ClientAccount.total]
    · simp [hrec, hcm]

theorem totalSum_apply_resolve {e : Engine} (client : ClientId) (tx : TxId) :
    totalSum (e.apply_resolve client tx).2.clients = totalSum e.clients := by
  unfold Engine.apply_resolve
  cases hrec : lookupA tx e.deposits with
  | none => simp [hrec]
  | some record =>
    by_cases hcm : record.client = client
    · by_cases hst : record.state = DepositState.Ok
      · simp [hrec, hcm, hst]
      · cases hacc : lookupA client e.clients with
        | none => simp [hrec, hcm, hst, hacc]
        | some account =>
          simp [hrec, hcm, hst, hacc]
          rw [totalSum_insertA_some hacc]
          simp [ClientAccount.release, ClientAccount.total]
    · simp [hrec, hcm]

theorem totalSum_apply_chargeback_ok {e : Engine} {client : ClientId} {tx : TxId}
    (h : (e.apply_chargeback client tx).1 = Except.ok ()) :
    totalSum (e.apply_chargeback client tx).2.clients =
      totalSum e.clients - recordedAmount e tx := by
  unfold Engine.apply_chargeback at h ⊢
  cases hrec : lookupA tx e.deposits with
  | none => simp [hrec] at h
  | some record =>
    by_cases hcm : record.client = client
    · by_cases hst : record.state = DepositState.Ok
      · simp [hrec, hcm, hst] at h
      · cases hacc : lookupA client e.clients with
        | none => simp [hrec, hcm, hst, hacc] at h
        | some account =>
          simp [hrec, hcm, hst, hacc]
          rw [totalSum_insertA_some hacc]
          simp [ClientAccount.freeze, ClientAccount.remove_held, ClientAccount.total,
            recordedAmount, hrec]
          ring
    · simp [hrec, hcm] at h

theorem totalSum_apply_chargeback_err {e : Engine} {client : ClientId} {tx : TxId}
    {err : DepositOperationError} (h : (e.apply_chargeback client tx).1 = Except.error err) :
    totalSum (e.apply_chargeback client tx).2.clients = totalSum e.clients := by
  unfold Engine.apply_chargeback at h ⊢
  cases hrec : lookupA tx e.deposits with
  | none => simp [hrec]
  | some record =>
    by_cases hcm : record.client = client
    · by_cases hst : record.state = DepositState.Ok
      · simp [hrec, hcm, hst]
      · cases hacc : lookupA client e.clients with
        | none => simp [hrec, hcm, hst, hacc]
        | some account => simp [hrec, hcm, hst, hacc] at h
    · simp [hrec, hcm]

theorem totalSum_apply_step (e : Engine) (t : Transaction) :
    totalSum (e.apply t).2.clients =
      totalSum e.clients + (ledgerDelta e t).1 - (ledgerDelta e t).2.1
        - (ledgerDelta e t).2.2 := by
  cases t with
  | Deposit client tx amount =>
    cases hr : (e.apply_deposit client tx amount).1 with
    | ok v =>
      cases v
      simp [Engine.apply, ledgerDelta, mapErr, hr, totalSum_apply_deposit_ok hr]
    | error err =>
      simp [Engine.apply, ledgerDelta, mapErr, hr, totalSum_apply_deposit_err hr]
  | Withdrawal client tx amount =>
    cases hr : (e.apply_withdrawal client tx amount).1 with
    | ok v =>
      cases v
      simp [Engine.apply, ledgerDelta, mapErr, hr, totalSum_apply_withdrawal_ok hr]
    | error err =>
      simp [Engine.apply, ledgerDelta, mapErr, hr, totalSum_apply_withdrawal_err hr]
  | Dispute client tx =>
    cases hr : (e.apply_dispute client tx).1 with
    | ok v =>
      cases v
      simp [Engine.apply, ledgerDelta, mapErr, hr, totalSum_apply_dispute]
    | error err =>
      simp [Engine.apply, ledgerDelta, mapErr, hr, totalSum_apply_dispute]
  | Resolve client tx =>
    cases hr : (e.apply_resolve client tx).1 with
    | ok v =>
      cases v
      simp [Engine.apply, ledgerDelta, mapErr, hr, totalSum_apply_resolve]
    | error err =>
      simp [Engine.apply, ledgerDelta, mapErr, hr, totalSum_apply_resolve]
  | Chargeback client tx =>
    cases hr : (e.apply_chargeback client tx).1 with
    | ok v =>
      cases v
      simp [Engine.apply, ledgerDelta, mapErr, hr, totalSum_apply_chargeback_ok hr]
    | error err =>
      simp [Engine.apply, ledgerDelta, mapErr, hr, totalSum_apply_chargeback_err hr]

theorem runLedger_fst (e : Engine) (txs : List Transaction) :
    (runLedger e txs).1 = Engine.run e txs := by
  induction txs generalizing e with
  | nil => simp [runLedger, Engine.run]
  | cons t ts ih => simp [runLedger, Engine.run, ih]

theorem totalSum_runLedger (e : Engine) (txs : List Transaction) :
    totalSum (runLedger e txs).1.clients =
      totalSum e.clients + (runLedger e txs).2.1 - (runLedger e txs).2.2.1
        - (runLedger e txs).2.2.2 := by
  induction txs generalizing e with
  | nil => simp [runLedger]
  | cons t ts ih =>
    simp only [runLedger]
    have hstep := totalSum_apply_step e t
    have hrest := ih (e.apply t).2
    rw [hrest, hstep]
    ring

end Conservation

section Amounts

theorem invAmounts_apply_deposit {e : Engine} {client : ClientId} {tx : TxId} {amount : Amount}
    (hamt : 0 ≤ amount) (h : InvAmounts e) :
    InvAmounts (e.apply_deposit client tx amount).2 := by
  unfold Engine.apply_deposit
  cases hb : e.is_unique tx with
  | false => simpa [hb] using h
  | true =>
    cases hacc : lookupA client e.clients with
    | none =>
      simp [hb, hacc, new_is_frozen]
      intro p hp
      rcases mem_insertA hp with rfl | hold
      · simpa [DepositRecord.new] using hamt
      · exact h p hold
    | some acc =>
      cases hfr : acc.is_frozen with
      | true =>
        simp [hb, hacc, hfr]
        exact h
      | false =>
        simp [hb, hacc, hfr]
        intro p hp
        rcases mem_insertA hp with rfl | hold
        · simpa [DepositRecord.new] using hamt
        · exact h p hold

theorem invAmounts_apply_withdrawal {e : Engine} {client : ClientId} {tx : TxId} {amount : Amount}
    (h : InvAmounts e) : InvAmounts (e.apply_withdrawal client tx amount).2 := by
  unfold Engine.apply_withdrawal
  cases hb : e.is_unique tx with
  | false => simpa [hb] using h
  | true =>
    cases hacc : lookupA client e.clients with
    | none =>
      by_cases hlt : (0 : Amount) < amount
      · simp [hb, hacc, new_is_frozen, new_available, hlt]
        exact h
      · simp [hb, hacc, new_is_frozen, new_available, hlt]
        exact h
    | some acc =>
      cases hfr : acc.is_frozen with
      | true =>
        simp [hb, hacc, hfr]
        exact h
      | false =>
        by_cases hlt : acc.available < amount
        · simp [hb, hacc, hfr, hlt]
          exact h
        · simp [hb, hacc, hfr, hlt]
          exact h

theorem invAmounts_apply_dispute {e : Engine} {client : ClientId} {tx : TxId}
    (h : InvAmounts e) : InvAmounts (e.apply_dispute client tx).2 := by
  unfold Engine.apply_dispute
  cases hrec : lookupA tx e.deposits with
  | none => simpa [hrec] using h
  | some record =>
    by_cases hcm : record.client = client
    · by_cases hst : record.state = DepositState.Disputed
      · simpa [hrec, hcm, hst] using h
      · have hamt : (0 : Amount) ≤ record.amount := h _ (lookupA_mem hrec)
        have hnew : InvAmounts
            { e with deposits :=
                insertA tx { record with state := DepositState.Disputed } e.deposits } := by
          intro p hp
          rcases mem_insertA hp with rfl | hold
          · exact hamt
          · exact h p hold
        cases hacc : lookupA client e.clients with
        | none => simpa [hrec, hcm, hst, hacc] using hnew
        | some account =>
          simp [hrec, hcm, hst, hacc]
          intro p hp
          rcases mem_insertA hp with rfl | hold
          · exact hamt
          · exact h p hold
    · simpa [hrec, hcm] using h

theorem invAmounts_apply_resolve {e : Engine} {client : ClientId} {tx : TxId}
    (h : InvAmounts e) : InvAmounts (e.apply_resolve client tx).2 := by
  unfold Engine.apply_resolve
  cases hrec : lookupA tx e.deposits with
  | none => simpa [hrec] using h
  | some record =>
    by_cases hcm : record.client = client
    · by_cases hst : record.state = DepositState.Ok
      · simpa [hrec, hcm, hst] using h
      · have hamt : (0 : Amount) ≤ record.amount := h _ (lookupA_mem hrec)
        have hnew : InvAmounts
            { e with deposits :=
                insertA tx { record with state := DepositState.Ok } e.deposits } := by
          intro p hp
          rcases mem_insertA hp with rfl | hold
          · exact hamt
          · exact h p hold
        cases hacc : lookupA client e.clients with
        | none => simpa [hrec, hcm, hst, hacc] using hnew
        | some account =>
          simp [hrec, hcm, hst, hacc]
          intro p hp
          rcases mem_insertA hp with rfl | hold
          · exact hamt
          · exact h p hold
    · simpa [hrec, hcm] using h

theorem invAmounts_apply_chargeback {e : Engine} {client : ClientId} {tx : TxId}
    (h : InvAmounts e) : InvAmounts (e.apply_chargeback client tx).2 := by
  unfold Engine.apply_chargeback
  cases hrec : lookupA tx e.deposits with
  | none => simpa [hrec] using h
  | some record =>
    by_cases hcm : record.client = client
    · by_cases hst : record.state = DepositState.Ok
      · simpa [hrec, hcm, hst] using h
      · cases hacc : lookupA client e.clients with
        | none => simpa [hrec, hcm, hst, hacc] using h
        | some account =>
          simp [hrec, hcm, hst, hacc]
          intro p hp
          exact h p (mem_eraseA hp)
    · simpa [hrec, hcm] using h

theorem invAmounts_apply {e : Engine} {t : Transaction} (hok : amountOk t = true)
    (h : InvAmounts e) : InvAmounts (e.apply t).2 := by
  cases t with
  | Deposit client tx amount =>
    have hamt : (0 : Amount) ≤ amount := by
      simpa [amountOk] using hok
    simpa [Engine.apply] using invAmounts_apply_deposit hamt h
  | Withdrawal client tx amount =>
    simpa [Engine.apply] using invAmounts_apply_withdrawal h
  | Dispute client tx =>
    simpa [Engine.apply] using invAmounts_apply_dispute h
  | Resolve client tx =>
    simpa [Engine.apply] using invAmounts_apply_resolve h
  | Chargeback client tx =>
    simpa [Engine.apply] using invAmounts_apply_chargeback h

theorem invAmounts_run {e : Engine} {txs : List Transaction}
    (hall : ∀ t ∈ txs, amountOk t = true) (h : InvAmounts e) :
    InvAmounts (Engine.run e txs) := by
  induction txs generalizing e with
  | nil => simpa [Engine.run] using h
  | cons t ts ih =>
    simp only [Engine.run]
    exact ih (fun t' ht' => hall t' (List.mem_cons_of_mem _ ht'))
      (invAmounts_apply (hall t (by simp)) h)

theorem invAmounts_new : InvAmounts Engine.new := by
  intro p hp
  simp [Engine.new] at hp

end Amounts

section NoClientNotFound

theorem apply_dispute_no_clientNotFound {e : Engine} (hinv : Invariant e)
    (client : ClientId) (tx : TxId) (op : DepositOperation) (c : ClientId) :
    (e.apply_dispute client tx).1 ≠
      Except.error (DepositOperationError.ClientNotFound op c) := by
  obtain ⟨hkeys, hcl, hdis, hheld⟩ := hinv
  unfold Engine.apply_dispute
  cases hrec : lookupA tx e.deposits with
  | none => simp
  | some record =>
    by_cases hcm : record.client = client
    · by_cases hst : record.state = DepositState.Disputed
      · simp [hcm, hst]
      · have hsome : (lookupA client e.clients).isSome = true := by
          have := hcl _ (lookupA_mem hrec)
          rwa [hcm] at this
        cases hacc : lookupA client e.clients with
        | none => rw [hacc] at hsome; simp at hsome
        | some account => simp [hcm, hst, hacc]
    · simp [hcm]

theorem apply_resolve_no_clientNotFound {e : Engine} (hinv : Invariant e)
    (client : ClientId) (tx : TxId) (op : DepositOperation) (c : ClientId) :
    (e.apply_resolve client tx).1 ≠
      Except.error (DepositOperationError.ClientNotFound op c) := by
  obtain ⟨hkeys, hcl, hdis, hheld⟩ := hinv
  unfold Engine.apply_resolve
  cases hrec : lookupA tx e.deposits with
  | none => simp
  | some record =>
    by_cases hcm : record.client = client
    · by_cases hst : record.state = DepositState.Ok
      · simp [hcm, hst]
      · have hsome : (lookupA client e.clients).isSome = true := by
          have := hcl _ (lookupA_mem hrec)
          rwa [hcm] at this
        cases hacc : lookupA client e.clients with
        | none => rw [hacc] at hsome; simp at hsome
        | some account => simp [hcm, hst, hacc]
    · simp [hcm]

theorem apply_chargeback_no_clientNotFound {e : Engine} (hinv : Invariant e)
    (client : ClientId) (tx : TxId) (op : DepositOperation) (c : ClientId) :
    (e.apply_chargeback client tx).1 ≠
      Except.error (DepositOperationError.ClientNotFound op c) := by
  obtain ⟨hkeys, hcl, hdis, hheld⟩ := hinv
  unfold Engine.apply_chargeback
  cases hrec : lookupA tx e.deposits with
  | none => simp
  | some record =>
    by_cases hcm : record.client = client
    · by_cases hst : record.state = DepositState.Ok
      · simp [hcm, hst]
      · have hsome : (lookupA client e.clients).isSome = true := by
          have := hcl _ (lookupA_mem hrec)
          rwa [hcm] at this
        cases hacc : lookupA client e.clients with
        | none => rw [hacc] at hsome; simp at hsome
        | some account => simp [hcm, hst, hacc]
    · simp [hcm]

end NoClientNotFound

section ErrorFrames

theorem apply_deposit_err_state {e : Engine} {client : ClientId} {tx : TxId} {amount : Amount}
    {err : DepositError} (h : (e.apply_deposit client tx amount).1 = Except.error err) :
    (e.apply_deposit client tx amount).2 = e := by
  unfold Engine.apply_deposit at h ⊢
  cases hb : e.is_unique tx with
  | false => simp [hb]
  | true =>
    cases hacc : lookupA client e.clients with
    | none => simp [hb, hacc, new_is_frozen] at h
    | some acc =>
      have hins : insertA client acc e.clients = e.clients := insertA_self_of_lookupA hacc
      cases hfr : acc.is_frozen with
      | true => simp [hb, hacc, hfr, hins]
      | false => simp [hb, hacc, hfr, hins] at h

theorem apply_withdrawal_err_frame {e : Engine} {client : ClientId} {tx : TxId} {amount : Amount}
    {err : WithdrawalError} (h : (e.apply_withdrawal client tx amount).1 = Except.error err) :
    (e.apply_withdrawal client tx amount).2.deposits = e.deposits ∧
      (e.apply_withdrawal client tx amount).2.withdrawal_ids = e.withdrawal_ids ∧
      ∀ c acc, lookupA c e.clients = some acc →
        lookupA c (e.apply_withdrawal client tx amount).2.clients = some acc := by
  unfold Engine.apply_withdrawal at h ⊢
  cases hb : e.is_unique tx with
  | false =>
    simp [hb]
  | true =>
    cases hacc : lookupA client e.clients with
    | none =>
      by_cases hlt : (0 : Amount) < amount
      · simp [hb, hacc, new_is_frozen, new_available, hlt]
        intro c acc hx
        by_cases hc : client = c
        · subst hc
          rw [hacc] at hx
          exact absurd hx (by simp)
        · rw [lookupA_insertA_ne hc]
          exact hx
      · simp [hb, hacc, new_is_frozen, new_available, hlt] at h
    | some acc =>
      have hins : insertA client acc e.clients = e.clients := insertA_self_of_lookupA hacc
      cases hfr : acc.is_frozen with
      | true =>
        simp [hb, hacc, hfr, hins]
      | false =>
        by_cases hlt : acc.available < amount
        · simp [hb, hacc, hfr, hlt, hins]
        · simp [hb, hacc, hfr, hlt, hins] at h

theorem apply_dispute_err_state {e : Engine} {client : ClientId} {tx : TxId}
    {err : DepositOperationError} (hinv : Invariant e)
    (h : (e.apply_dispute client tx).1 = Except.error err) :
    (e.apply_dispute client tx).2 = e := by
  obtain ⟨hkeys, hcl, hdis, hheld⟩ := hinv
  unfold Engine.apply_dispute at h ⊢
  cases hrec : lookupA tx e.deposits with
  | none => simp [hrec]
  | some record =>
    by_cases hcm : record.client = client
    · by_cases hst : record.state = DepositState.Disputed
      · simp [hrec, hcm, hst]
      · have hsome : (lookupA client e.clients).isSome = true := by
          have := hcl _ (lookupA_mem hrec)
          rwa [hcm] at this
        cases hacc : lookupA client e.clients with
        | none => rw [hacc] at hsome; simp at hsome
        | some account => simp [hrec, hcm, hst, hacc] at h
    · simp [hrec, hcm]

theorem apply_resolve_err_state {e : Engine} {client : ClientId} {tx : TxId}
    {err : DepositOperationError} (hinv : Invariant e)
    (h : (e.apply_resolve client tx).1 = Except.error err) :
    (e.apply_resolve client tx).2 = e := by
  obtain ⟨hkeys, hcl, hdis, hheld⟩ := hinv
  unfold Engine.apply_resolve at h ⊢
  cases hrec : lookupA tx e.deposits with
  | none => simp [hrec]
  | some record =>
    by_cases hcm : record.client = client
    · by_cases hst : record.state = DepositState.Ok
      · simp [hrec, hcm, hst]
      · have hsome : (lookupA client e.clients).isSome = true := by
          have := hcl _ (lookupA_mem hrec)
          rwa [hcm] at this
        cases hacc : lookupA client e.clients with
        | none => rw [hacc] at hsome; simp at hsome
        | some account => simp [hrec, hcm, hst, hacc] at h
    · simp [hrec, hcm]

theorem apply_chargeback_err_state {e : Engine} {client : ClientId} {tx : TxId}
    {err : DepositOperationError}
    (h : (e.apply_chargeback client tx).1 = Except.error err) :
    (e.apply_chargeback client tx).2 = e := by
  unfold Engine.apply_chargeback at h ⊢
  cases hrec : lookupA tx e.deposits with
  | none => simp [hrec]
  | some record =>
    by_cases hcm : record.client = client
    · by_cases hst : record.state = DepositState.Ok
      · simp [hrec, hcm, hst]
      · cases hacc : lookupA client e.clients with
        | none => simp [hrec, hcm, hst, hacc]
        | some account => simp [hrec, hcm, hst, hacc] at h
    · simp [hrec, hcm]

end ErrorFrames

section TxNotFoundHelpers

theorem apply_dispute_txNotFound {e : Engine} (c : ClientId) {tx : TxId}
    (h : lookupA tx e.deposits = none) :
    (e.apply (Transaction.Dispute c tx)).1 =
      Except.error (EngineError.DepositOperation
        (DepositOperationError.TxNotFound DepositOperation.Dispute tx)) := by
  simp [Engine.apply, Engine.apply_dispute, h, mapErr]

theorem apply_resolve_txNotFound {e : Engine} (c : ClientId) {tx : TxId}
    (h : lookupA tx e.deposits = none) :
    (e.apply (Transaction.Resolve c tx)).1 =
      Except.error (EngineError.DepositOperation
        (DepositOperationError.TxNotFound DepositOperation.Resolve tx)) := by
  simp [Engine.apply, Engine.apply_resolve, h, mapErr]

theorem apply_chargeback_txNotFound {e : Engine} (c : ClientId) {tx : TxId}
    (h : lookupA tx e.deposits = none) :
    (e.apply (Transaction.Chargeback c tx)).1 =
      Except.error (EngineError.DepositOperation
        (DepositOperationError.TxNotFound DepositOperation.Chargeback tx)) := by
  simp [Engine.apply, Engine.apply_chargeback, h, mapErr]

end TxNotFoundHelpers

/-- C2: monetary conservation. For every finite sequence of transactions applied
to an engine created by `Engine::new`, after every apply the sum over all
clients of `total(c) = available(c) + held(c)` equals the sum of the amounts of
the deposits that succeeded, minus the sum of the amounts of the withdrawals
that succeeded, minus the sum of the recorded amounts of the chargebacks that
succeeded. -/
theorem monetary_conservation (txs : List Transaction) :
    totalSum (Engine.run Engine.new txs).clients =
      (runLedger Engine.new txs).2.1 - (runLedger Engine.new txs).2.2.1
        - (runLedger Engine.new txs).2.2.2 := by
  have h := totalSum_runLedger Engine.new txs
  rw [runLedger_fst] at h
  simpa [Engine.new, totalSum] using h

/-- C4: non-negative held. For every finite sequence of transactions in which
every deposit and withdrawal carries a non-negative amount, applied to a fresh
engine, after every apply every client account has `held ≥ 0`. -/
theorem held_nonneg (txs : List Transaction)
    (hamts : ∀ t ∈ txs, amountOk t = true) (c : ClientId) (acc : ClientAccount)
    (hacc : lookupA c (Engine.run Engine.new txs).clients = some acc) :
    0 ≤ acc.held := by
  have hinv := invariant_run txs invariant_new
  have hams := invAmounts_run hamts invAmounts_new
  rw [hinv.2.2.2 c acc hacc]
  exact disputedSum_nonneg hams

theorem held_nonneg_witness :
    (0 : Amount) ≤ (ClientAccount.mk 1 0 100 false).held :=
  held_nonneg [Transaction.Deposit 1 1 100, Transaction.Dispute 1 1] (by decide) 1
    (ClientAccount.mk 1 0 100 false) (by decide)

/-- C5: transaction-id disjointness. In every reachable engine state, no tx id
is simultaneously a key of the deposits map and a member of the withdrawal-id
set. -/
theorem deposits_withdrawal_ids_disjoint (e : Engine) (hreach : Reachable e) (tx : TxId)
    (hdep : (lookupA tx e.deposits).isSome = true) :
    containsS tx e.withdrawal_ids = false :=
  (reachable_invariant hreach).2.2.1 tx hdep

theorem deposits_withdrawal_ids_disjoint_witness :
    containsS 1 (Engine.run Engine.new [Transaction.Deposit 1 1 100]).withdrawal_ids = false :=
  deposits_withdrawal_ids_disjoint (Engine.run Engine.new [Transaction.Deposit 1 1 100])
    ⟨[Transaction.Deposit 1 1 100], rfl⟩ 1 (by decide)

/-- C9: `ClientNotFound` is unreachable. In every reachable engine state the
client of every deposit record has an account, and consequently no `apply`
can return a `ClientNotFound` error. -/
theorem clientNotFound_unreachable (e : Engine) (hreach : Reachable e) :
    (∀ p ∈ e.deposits, (lookupA p.2.client e.clients).isSome = true) ∧
      ∀ (t : Transaction) (op : DepositOperation) (c : ClientId),
        (e.apply t).1 ≠ Except.error (EngineError.DepositOperation
          (DepositOperationError.ClientNotFound op c)) := by
  have hinv := reachable_invariant hreach
  refine ⟨hinv.2.1, ?_⟩
  intro t op c
  cases t with
  | Deposit client tx amount =>
    cases hr : (e.apply_deposit client tx amount).1 with
    | ok v => simp [Engine.apply, mapErr, hr]
    | error e0 => simp [Engine.apply, mapErr, hr]
  | Withdrawal client tx amount =>
    cases hr : (e.apply_withdrawal client tx amount).1 with
    | ok v => simp [Engine.apply, mapErr, hr]
    | error e0 => simp [Engine.apply, mapErr, hr]
  | Dispute client tx =>
    intro hcontra
    cases hr : (e.apply_dispute client tx).1 with
    | ok v => simp [Engine.apply, mapErr, hr] at hcontra
    | error e0 =>
      simp [Engine.apply, mapErr, hr] at hcontra
      exact apply_dispute_no_clientNotFound hinv client tx op c (by rw [hr, hcontra])
  | Resolve client tx =>
    intro hcontra
    cases hr : (e.apply_resolve client tx).1 with
    | ok v => simp [Engine.apply, mapErr, hr] at hcontra
    | error e0 =>
      simp [Engine.apply, mapErr, hr] at hcontra
      exact apply_resolve_no_clientNotFound hinv client tx op c (by rw [hr, hcontra])
  | Chargeback client tx =>
    intro hcontra
    cases hr : (e.apply_chargeback client tx).1 with
    | ok v => simp [Engine.apply, mapErr, hr] at hcontra
    | error e0 =>
      simp [Engine.apply, mapErr, hr] at hcontra
      exact apply_chargeback_no_clientNotFound hinv client tx op c (by rw [hr, hcontra])

theorem clientNotFound_unreachable_witness :
    (Engine.new.apply (Transaction.Dispute 1 1)).1 ≠
      Except.error (EngineError.DepositOperation
        (DepositOperationError.ClientNotFound DepositOperation.Dispute 1)) :=
  (clientNotFound_unreachable Engine.new ⟨[], rfl⟩).2 (Transaction.Dispute 1 1)
    DepositOperation.Dispute 1

/-- C10: a rejected transaction can still create an account. In every reachable
state where client `c` has no account and `tx` is fresh, a withdrawal of a
positive amount returns `InsufficientFunds` yet afterwards `get_client c`
returns the zero, unfrozen account and `c` appears in the clients iteration. -/
theorem rejected_withdrawal_creates_account (e : Engine) (hreach : Reachable e)
    (c : ClientId) (tx : TxId) (a : Amount) (hno : e.get_client c = none)
    (huniq : e.is_unique tx = true) (hpos : 0 < a) :
    (e.apply (Transaction.Withdrawal c tx a)).1 =
        Except.error (EngineError.Withdrawal (WithdrawalError.InsufficientFunds c 0 a)) ∧
      (e.apply (Transaction.Withdrawal c tx a)).2.get_client c = some (ClientAccount.new c) ∧
      (ClientAccount.new c).available = 0 ∧ (ClientAccount.new c).held = 0 ∧
      (ClientAccount.new c).frozen = false ∧
      ∃ p ∈ (e.apply (Transaction.Withdrawal c tx a)).2.clients, p.2.id = c := by
  have hacc : lookupA c e.clients = none := hno
  refine ⟨?_, ?_, rfl, rfl, rfl, ?_⟩
  · simp [Engine.apply, Engine.apply_withdrawal, huniq, hacc, new_is_frozen, new_available,
      hpos, mapErr]
  · simp [Engine.apply, Engine.apply_withdrawal, Engine.get_client, huniq, hacc,
      new_is_frozen, new_available, hpos, lookupA_insertA_self]
  · refine ⟨(c, ClientAccount.new c), ?_, rfl⟩
    simp [Engine.apply, Engine.apply_withdrawal, huniq, hacc, new_is_frozen, new_available, hpos]
    exact lookupA_mem (lookupA_insertA_self c (ClientAccount.new c) e.clients)

theorem rejected_withdrawal_creates_account_witness :
    (Engine.new.apply (Transaction.Withdrawal 1 1 5)).1 =
        Except.error (EngineError.Withdrawal (WithdrawalError.InsufficientFunds 1 0 5)) ∧
      (Engine.new.apply (Transaction.Withdrawal 1 1 5)).2.get_client 1 =
        some (ClientAccount.new 1) ∧
      (ClientAccount.new 1).available = 0 ∧ (ClientAccount.new 1).held = 0 ∧
      (ClientAccount.new 1).frozen = false ∧
      ∃ p ∈ (Engine.new.apply (Transaction.Withdrawal 1 1 5)).2.clients, p.2.id = 1 :=
  rejected_withdrawal_creates_account Engine.new ⟨[], rfl⟩ 1 1 5 rfl rfl (by decide)

/-- C7: negative-available dispute policy. In every reachable state containing
an `Ok` deposit record for `tx` owned by `c` whose amount exceeds `c`'s
available balance, the dispute succeeds: available decreases by the amount
(becoming negative), held increases by the same amount, total is unchanged. -/
theorem dispute_negative_available (e : Engine) (hreach : Reachable e)
    (tx : TxId) (record : DepositRecord) (c : ClientId) (acc : ClientAccount)
    (hrec : lookupA tx e.deposits = some record)
    (hst : record.state = DepositState.Ok) (hclient : record.client = c)
    (hacc : lookupA c e.clients = some acc) (hlt : acc.available < record.amount) :
    (e.apply (Transaction.Dispute c tx)).1 = Except.ok () ∧
      lookupA c (e.apply (Transaction.Dispute c tx)).2.clients =
        some (acc.hold record.amount) ∧
      (acc.hold record.amount).available = acc.available - record.amount ∧
      (acc.hold record.amount).held = acc.held + record.amount ∧
      (acc.hold record.amount).available < 0 ∧
      (acc.hold record.amount).total = acc.total := by
  refine ⟨?_, ?_, rfl, rfl, ?_, ?_⟩
  · simp [Engine.apply, Engine.apply_dispute, hrec, hclient, hst, hacc, mapErr]
  · simp [Engine.apply, Engine.apply_dispute, hrec, hclient, hst, hacc, lookupA_insertA_self]
  · simpa [ClientAccount.hold] using sub_neg.mpr hlt
  · simp [ClientAccount.hold, ClientAccount.total]

theorem dispute_negative_available_witness :
    ((Engine.run Engine.new [Transaction.Deposit 1 1 100, Transaction.Withdrawal 1 2 60]).apply
        (Transaction.Dispute 1 1)).1 = Except.ok () ∧
      lookupA 1 ((Engine.run Engine.new [Transaction.Deposit 1 1 100,
          Transaction.Withdrawal 1 2 60]).apply (Transaction.Dispute 1 1)).2.clients =
        some ((ClientAccount.mk 1 40 0 false).hold 100) ∧
      ((ClientAccount.mk 1 40 0 false).hold 100).available = 40 - 100 ∧
      ((ClientAccount.mk 1 40 0 false).hold 100).held = 0 + 100 ∧
      ((ClientAccount.mk 1 40 0 false).hold 100).available < 0 ∧
      ((ClientAccount.mk 1 40 0 false).hold 100).total = (ClientAccount.mk 1 40 0 false).total :=
  dispute_negative_available
    (Engine.run Engine.new [Transaction.Deposit 1 1 100, Transaction.Withdrawal 1 2 60])
    ⟨[Transaction.Deposit 1 1 100, Transaction.Withdrawal 1 2 60], rfl⟩
    1 (DepositRecord.mk 1 100 DepositState.Ok) 1 (ClientAccount.mk 1 40 0 false)
    (by decide) rfl rfl (by decide) (by decide)

/-- C1: atomicity of apply. In every reachable engine state, if `apply`
returns an error then the deposits map and the withdrawal-id set are
unchanged, and every existing account (its available, held and frozen
fields) is unchanged. -/
theorem apply_error_frame (e : Engine) (hreach : Reachable e) (t : Transaction)
    {err : EngineError} (herr : (e.apply t).1 = Except.error err) :
    (e.apply t).2.deposits = e.deposits ∧
      (e.apply t).2.withdrawal_ids = e.withdrawal_ids ∧
      ∀ c acc, lookupA c e.clients = some acc →
        lookupA c (e.apply t).2.clients = some acc := by
  have hinv := reachable_invariant hreach
  cases t with
  | Deposit client tx amount =>
    cases hr : (e.apply_deposit client tx amount).1 with
    | ok v => simp [Engine.apply, mapErr, hr] at herr
    | error e0 =>
      have hstate := apply_deposit_err_state hr
      simp only [Engine.apply]
      rw [hstate]
      exact ⟨rfl, rfl, fun c acc hx => hx⟩
  | Withdrawal client tx amount =>
    cases hr : (e.apply_withdrawal client tx amount).1 with
    | ok v => simp [Engine.apply, mapErr, hr] at herr
    | error e0 =>
      have hframe := apply_withdrawal_err_frame hr
      simpa [Engine.apply] using hframe
  | Dispute client tx =>
    cases hr : (e.apply_dispute client tx).1 with
    | ok v => simp [Engine.apply, mapErr, hr] at herr
    | error e0 =>
      have hstate := apply_dispute_err_state hinv hr
      simp only [Engine.apply]
      rw [hstate]
      exact ⟨rfl, rfl, fun c acc hx => hx⟩
  | Resolve client tx =>
    cases hr : (e.apply_resolve client tx).1 with
    | ok v => simp [Engine.apply, mapErr, hr] at herr
    | error e0 =>
      have hstate := apply_resolve_err_state hinv hr
      simp only [Engine.apply]
      rw [hstate]
      exact ⟨rfl, rfl, fun c acc hx => hx⟩
  | Chargeback client tx =>
    cases hr : (e.apply_chargeback client tx).1 with
    | ok v => simp [Engine.apply, mapErr, hr] at herr
    | error e0 =>
      have hstate := apply_chargeback_err_state hr
      simp only [Engine.apply]
      rw [hstate]
      exact ⟨rfl, rfl, fun c acc hx => hx⟩

theorem apply_error_frame_witness :
    (Engine.new.apply (Transaction.Withdrawal 1 1 5)).2.deposits = Engine.new.deposits ∧
      (Engine.new.apply (Transaction.Withdrawal 1 1 5)).2.withdrawal_ids =
        Engine.new.withdrawal_ids ∧
      ∀ c acc, lookupA c Engine.new.clients = some acc →
        lookupA c (Engine.new.apply (Transaction.Withdrawal 1 1 5)).2.clients = some acc :=
  apply_error_frame Engine.new ⟨[], rfl⟩ (Transaction.Withdrawal 1 1 5)
    (show (Engine.new.apply (Transaction.Withdrawal 1 1 5)).1 =
      Except.error (EngineError.Withdrawal (WithdrawalError.InsufficientFunds 1 0 5)) from rfl)

/-- C6 (amended): chargeback of a disputed deposit succeeds, decreases held by
the record's amount, leaves available unchanged, freezes the account and
evicts the record; in the resulting state (that is, until the id is reused by
a later deposit) any dispute, resolve or chargeback referencing the tx
returns `TxNotFound`. -/
theorem chargeback_terminal (e : Engine) (hreach : Reachable e)
    (tx : TxId) (record : DepositRecord) (c : ClientId)
    (hrec : lookupA tx e.deposits = some record)
    (hst : record.state = DepositState.Disputed) (hclient : record.client = c) :
    (e.apply (Transaction.Chargeback c tx)).1 = Except.ok () ∧
      (∃ acc, lookupA c e.clients = some acc ∧
        lookupA c (e.apply (Transaction.Chargeback c tx)).2.clients =
          some ((acc.remove_held record.amount).freeze) ∧
        ((acc.remove_held record.amount).freeze).held = acc.held - record.amount ∧
        ((acc.remove_held record.amount).freeze).available = acc.available ∧
        ((acc.remove_held record.amount).freeze).frozen = true) ∧
      lookupA tx (e.apply (Transaction.Chargeback c tx)).2.deposits = none ∧
      ∀ c2 : ClientId,
        ((e.apply (Transaction.Chargeback c tx)).2.apply (Transaction.Dispute c2 tx)).1 =
            Except.error (EngineError.DepositOperation
              (DepositOperationError.TxNotFound DepositOperation.Dispute tx)) ∧
          ((e.apply (Transaction.Chargeback c tx)).2.apply (Transaction.Resolve c2 tx)).1 =
            Except.error (EngineError.DepositOperation
              (DepositOperationError.TxNotFound DepositOperation.Resolve tx)) ∧
          ((e.apply (Transaction.Chargeback c tx)).2.apply (Transaction.Chargeback c2 tx)).1 =
            Except.error (EngineError.DepositOperation
              (DepositOperationError.TxNotFound DepositOperation.Chargeback tx)) := by
  have hinv := reachable_invariant hreach
  have hsm : (lookupA c e.clients).isSome = true := by
    have := hinv.2.1 _ (lookupA_mem hrec)
    rwa [hclient] at this
  cases hacc : lookupA c e.clients with
  | none => rw [hacc] at hsm; simp at hsm
  | some account =>
    have hdep2 : (e.apply (Transaction.Chargeback c tx)).2.deposits = eraseA tx e.deposits := by
      simp [Engine.apply, Engine.apply_chargeback, hrec, hclient, hst, hacc]
    have hnone : lookupA tx (e.apply (Transaction.Chargeback c tx)).2.deposits = none := by
      rw [hdep2]
      exact lookupA_eraseA_self hinv.1
    refine ⟨?_, ⟨account, rfl, ?_, ?_, rfl, rfl⟩, hnone, ?_⟩
    · simp [Engine.apply, Engine.apply_chargeback, hrec, hclient, hst, hacc, mapErr]
    · simp [Engine.apply, Engine.apply_chargeback, hrec, hclient, hst, hacc,
        lookupA_insertA_self]
    · simp [ClientAccount.remove_held, ClientAccount.freeze]
    · intro c2
      exact ⟨apply_dispute_txNotFound c2 hnone, apply_resolve_txNotFound c2 hnone,
        apply_chargeback_txNotFound c2 hnone⟩

theorem chargeback_terminal_witness :
    ((Engine.run Engine.new [Transaction.Deposit 1 1 100, Transaction.Dispute 1 1]).apply
        (Transaction.Chargeback 1 1)).1 = Except.ok () ∧
      (∃ acc, lookupA 1 (Engine.run Engine.new [Transaction.Deposit 1 1 100,
            Transaction.Dispute 1 1]).clients = some acc ∧
        lookupA 1 ((Engine.run Engine.new [Transaction.Deposit 1 1 100,
            Transaction.Dispute 1 1]).apply (Transaction.Chargeback 1 1)).2.clients =
          some ((acc.remove_held 100).freeze) ∧
        ((acc.remove_held 100).freeze).held = acc.held - 100 ∧
        ((acc.remove_held 100).freeze).available = acc.available ∧
        ((acc.remove_held 100).freeze).frozen = true) ∧
      lookupA 1 ((Engine.run Engine.new [Transaction.Deposit 1 1 100,
          Transaction.Dispute 1 1]).apply (Transaction.Chargeback 1 1)).2.deposits = none ∧
      ∀ c2 : ClientId,
        (((Engine.run Engine.new [Transaction.Deposit 1 1 100, Transaction.Dispute 1 1]).apply
              (Transaction.Chargeback 1 1)).2.apply (Transaction.Dispute c2 1)).1 =
            Except.error (EngineError.DepositOperation
              (DepositOperationError.TxNotFound DepositOperation.Dispute 1)) ∧
          (((Engine.run Engine.new [Transaction.Deposit 1 1 100, Transaction.Dispute 1 1]).apply
              (Transaction.Chargeback 1 1)).2.apply (Transaction.Resolve c2 1)).1 =
            Except.error (EngineError.DepositOperation
              (DepositOperationError.TxNotFound DepositOperation.Resolve 1)) ∧
          (((Engine.run Engine.new [Transaction.Deposit 1 1 100, Transaction.Dispute 1 1]).apply
              (Transaction.Chargeback 1 1)).2.apply (Transaction.Chargeback c2 1)).1 =
            Except.error (EngineError.DepositOperation
              (DepositOperationError.TxNotFound DepositOperation.Chargeback 1)) :=
  chargeback_terminal
    (Engine.run Engine.new [Transaction.Deposit 1 1 100, Transaction.Dispute 1 1])
    ⟨[Transaction.Deposit 1 1 100, Transaction.Dispute 1 1], rfl⟩
    1 (DepositRecord.mk 1 100 DepositState.Disputed) 1 (by decide) rfl rfl

theorem chargeback_terminal_counterexample :
    ((Engine.run Engine.new [Transaction.Deposit 1 1 100, Transaction.Dispute 1 1]).apply
        (Transaction.Chargeback 1 1)).1 = Except.ok () ∧
      ((Engine.run Engine.new [Transaction.Deposit 1 1 100, Transaction.Dispute 1 1,
          Transaction.Chargeback 1 1, Transaction.Deposit 2 1 50]).apply
        (Transaction.Dispute 2 1)).1 = Except.ok () ∧
      ((Engine.run Engine.new [Transaction.Deposit 1 1 100, Transaction.Dispute 1 1,
          Transaction.Chargeback 1 1, Transaction.Deposit 2 1 50]).apply
        (Transaction.Dispute 2 1)).1 ≠
        Except.error (EngineError.DepositOperation
          (DepositOperationError.TxNotFound DepositOperation.Dispute 1)) := by
  refine ⟨rfl, rfl, ?_⟩
  have h : ((Engine.run Engine.new [Transaction.Deposit 1 1 100, Transaction.Dispute 1 1,
      Transaction.Chargeback 1 1, Transaction.Deposit 2 1 50]).apply
        (Transaction.Dispute 2 1)).1 = Except.ok () := rfl
  rw [h]
  simp

/-- C8 (amended): deposits and withdrawals targeting a frozen client leave its
account untouched and return an error: `AccountFrozen` when the tx id is
fresh, `DuplicateTxId` when the tx id was already used. -/
theorem frozen_inert (e : Engine) (hreach : Reachable e) (c : ClientId) (acc : ClientAccount)
    (hacc : lookupA c e.clients = some acc) (hfr : acc.frozen = true)
    (tx : TxId) (a : Amount) :
    (e.apply (Transaction.Deposit c tx a)).1 =
        Except.error (EngineError.Deposit
          (if e.is_unique tx then DepositError.AccountFrozen c
            else DepositError.DuplicateTxId tx)) ∧
      lookupA c (e.apply (Transaction.Deposit c tx a)).2.clients = some acc ∧
      (e.apply (Transaction.Withdrawal c tx a)).1 =
        Except.error (EngineError.Withdrawal
          (if e.is_unique tx then WithdrawalError.AccountFrozen c
            else WithdrawalError.DuplicateTxId tx)) ∧
      lookupA c (e.apply (Transaction.Withdrawal c tx a)).2.clients = some acc := by
  have hins : insertA c acc e.clients = e.clients := insertA_self_of_lookupA hacc
  have hfr' : acc.is_frozen = true := hfr
  refine ⟨?_, ?_, ?_, ?_⟩
  · cases hb : e.is_unique tx with
    | false => simp [Engine.apply, Engine.apply_deposit, hb, mapErr]
    | true => simp [Engine.apply, Engine.apply_deposit, hb, hacc, hfr', mapErr]
  · cases hb : e.is_unique tx with
    | false => simp [Engine.apply, Engine.apply_deposit, hb, hacc]
    | true => simp [Engine.apply, Engine.apply_deposit, hb, hacc, hfr', hins]
  · cases hb : e.is_unique tx with
    | false => simp [Engine.apply, Engine.apply_withdrawal, hb, mapErr]
    | true => simp [Engine.apply, Engine.apply_withdrawal, hb, hacc, hfr', mapErr]
  · cases hb : e.is_unique tx with
    | false => simp [Engine.apply, Engine.apply_withdrawal, hb, hacc]
    | true => simp [Engine.apply, Engine.apply_withdrawal, hb, hacc, hfr', hins]

theorem frozen_inert_witness :
    ((Engine.run Engine.new [Transaction.Deposit 1 1 100, Transaction.Dispute 1 1,
        Transaction.Chargeback 1 1]).apply (Transaction.Deposit 1 2 50)).1 =
        Except.error (EngineError.Deposit
          (if (Engine.run Engine.new [Transaction.Deposit 1 1 100, Transaction.Dispute 1 1,
              Transaction.Chargeback 1 1]).is_unique 2 then DepositError.AccountFrozen 1
            else DepositError.DuplicateTxId 2)) ∧
      lookupA 1 ((Engine.run Engine.new [Transaction.Deposit 1 1 100, Transaction.Dispute 1 1,
          Transaction.Chargeback 1 1]).apply (Transaction.Deposit 1 2 50)).2.clients =
        some (ClientAccount.mk 1 0 0 true) ∧
      ((Engine.run Engine.new [Transaction.Deposit 1 1 100, Transaction.Dispute 1 1,
          Transaction.Chargeback 1 1]).apply (Transaction.Withdrawal 1 2 50)).1 =
        Except.error (EngineError.Withdrawal
          (if (Engine.run Engine.new [Transaction.Deposit 1 1 100, Transaction.Dispute 1 1,
              Transaction.Chargeback 1 1]).is_unique 2 then WithdrawalError.AccountFrozen 1
            else WithdrawalError.DuplicateTxId 2)) ∧
      lookupA 1 ((Engine.run Engine.new [Transaction.Deposit 1 1 100, Transaction.Dispute 1 1,
          Transaction.Chargeback 1 1]).apply (Transaction.Withdrawal 1 2 50)).2.clients =
        some (ClientAccount.mk 1 0 0 true) :=
  frozen_inert
    (Engine.run Engine.new [Transaction.Deposit 1 1 100, Transaction.Dispute 1 1,
      Transaction.Chargeback 1 1])
    ⟨[Transaction.Deposit 1 1 100, Transaction.Dispute 1 1, Transaction.Chargeback 1 1], rfl⟩
    1 (ClientAccount.mk 1 0 0 true) (by decide) rfl 2 50

theorem frozen_inert_counterexample :
    (lookupA 1 (Engine.run Engine.new [Transaction.Deposit 1 1 100, Transaction.Deposit 1 2 100,
        Transaction.Dispute 1 1, Transaction.Chargeback 1 1]).clients).map
        ClientAccount.frozen = some true ∧
      ((Engine.run Engine.new [Transaction.Deposit 1 1 100, Transaction.Deposit 1 2 100,
          Transaction.Dispute 1 1, Transaction.Chargeback 1 1]).apply
        (Transaction.Deposit 1 2 50)).1 =
        Except.error (EngineError.Deposit (DepositError.DuplicateTxId 2)) ∧
      ((Engine.run Engine.new [Transaction.Deposit 1 1 100, Transaction.Deposit 1 2 100,
          Transaction.Dispute 1 1, Transaction.Chargeback 1 1]).apply
        (Transaction.Deposit 1 2 50)).1 ≠
        Except.error (EngineError.Deposit (DepositError.AccountFrozen 1)) := by
  refine ⟨rfl, rfl, ?_⟩
  have h : ((Engine.run Engine.new [Transaction.Deposit 1 1 100, Transaction.Deposit 1 2 100,
      Transaction.Dispute 1 1, Transaction.Chargeback 1 1]).apply
        (Transaction.Deposit 1 2 50)).1 =
      Except.error (EngineError.Deposit (DepositError.DuplicateTxId 2)) := rfl
  rw [h]
  simp

end TxsEng
